import Mathlib

/-!
Student registration system: validation and roster store.

A shallow embedding of `src/script.js` (validators, the aggregate form
validation with its error display, and the create / update / delete
operations over `localStorage`), followed by theorems about it.

Conventions of the embedding.

* A JavaScript string is the list of its UTF-16 code units (`JSString`);
  `.length` is the length of that list.
* String literals of the program that are only displayed or used as element
  ids (messages, ids) are kept as Lean strings.
* The four regular expressions of the program are transcribed as values of
  `RegExp` and run by a derivative matcher; none of them has flags and each is
  anchored by `^` and `$`, so `regex.test(s)` holds exactly when the whole of
  `s` is matched by the body.
* The value stored under the key `'students'` is modelled by the collection it
  deserialises to (`JSON.parse (JSON.stringify xs)` is `xs` for an array of
  records with string fields); `none` is the absent key.
* `Date.now()`, the answer to `confirm(...)` and the document are inputs.
-/

namespace StudentRegistration

/-! ## Strings -/

/-- A JavaScript string: its UTF-16 code units. -/
abbrev JSString := List Nat

/-- UTF-16 code units of one Unicode scalar value. -/
def utf16Units (c : Char) : List Nat :=
  if c.toNat < 65536 then [c.toNat]
  else [55296 + (c.toNat - 65536) / 1024, 56320 + (c.toNat - 65536) % 1024]

/-- The JavaScript string written by a literal. -/
def js (s : String) : JSString := s.toList.flatMap utf16Units

/-- ECMAScript `WhiteSpace` and `LineTerminator` code points: the characters
removed by `String.prototype.trim` and matched by `\s`. -/
def isWhiteSpace (c : Nat) : Bool :=
  c == 9 || c == 10 || c == 11 || c == 12 || c == 13 || c == 32 || c == 160 ||
  c == 5760 || (8192 ≤ c && c ≤ 8202) || c == 8232 || c == 8233 || c == 8239 ||
  c == 8287 || c == 12288 || c == 65279

/-- The string without its trailing white space. -/
def trimEnd (s : JSString) : JSString := (s.reverse.dropWhile isWhiteSpace).reverse

/-- Method `String.prototype.trim`. -/
def trim (s : JSString) : JSString := trimEnd (s.dropWhile isWhiteSpace)

/-! ## Regular expressions -/

/-- Regular expressions over code units; `cls p` is a character class (or a
single character). -/
inductive RegExp where
  | never : RegExp
  | empty : RegExp
  | cls : (Nat → Bool) → RegExp
  | seq : RegExp → RegExp → RegExp
  | alt : RegExp → RegExp → RegExp
  | star : RegExp → RegExp

namespace RegExp

/-- The quantifier `+`. -/
def plus (r : RegExp) : RegExp := seq r (star r)

/-- A literal character. -/
def chr (c : Nat) : RegExp := cls (fun x => x == c)

/-- Whether the expression matches the empty string. -/
def nullable : RegExp → Bool
  | never => false
  | empty => true
  | cls _ => false
  | seq r s => nullable r && nullable s
  | alt r s => nullable r || nullable s
  | star _ => true

/-- Brzozowski derivative by one code unit. -/
def deriv : RegExp → Nat → RegExp
  | never, _ => never
  | empty, _ => never
  | cls p, c => if p c then empty else never
  | seq r s, c =>
      if nullable r then alt (seq (deriv r c) s) (deriv s c) else seq (deriv r c) s
  | alt r s, c => alt (deriv r c) (deriv s c)
  | star r, c => seq (deriv r c) (star r)

/-- Method `test` of the anchored pattern `/^body$/`: `body.test s` is
`/^body$/.test(s)`. -/
def test (r : RegExp) : JSString → Bool
  | [] => nullable r
  | c :: s => test (deriv r c) s

/-- The language of an expression: `Matches r s` when `r` matches the whole
of `s`. -/
inductive Matches : RegExp → JSString → Prop
  | empty : Matches RegExp.empty []
  | cls {p : Nat → Bool} {c : Nat} : p c = true → Matches (RegExp.cls p) [c]
  | seq {r s : RegExp} {a b : JSString} :
      Matches r a → Matches s b → Matches (RegExp.seq r s) (a ++ b)
  | altLeft {r s : RegExp} {a : JSString} : Matches r a → Matches (RegExp.alt r s) a
  | altRight {r s : RegExp} {a : JSString} : Matches s a → Matches (RegExp.alt r s) a
  | starNil {r : RegExp} : Matches (RegExp.star r) []
  | starCons {r : RegExp} {a b : JSString} :
      Matches r a → Matches (RegExp.star r) b → Matches (RegExp.star r) (a ++ b)

end RegExp

/-! ## Validation functions -/

/-- The object returned by a validator. -/
structure Validation where
  isValid : Bool
  message : String
  deriving DecidableEq, Repr

/-- Class `[a-zA-Z\s]`. -/
def nameClass (c : Nat) : Bool :=
  (97 ≤ c && c ≤ 122) || (65 ≤ c && c ≤ 90) || isWhiteSpace c

/-- Class `[0-9]`. -/
def digitClass (c : Nat) : Bool := 48 ≤ c && c ≤ 57

/-- Class `[^\s@]`. -/
def emailClass (c : Nat) : Bool := !(isWhiteSpace c || c == 64)

/-- Pattern `/^[a-zA-Z\s]+$/`. -/
def nameRegex : RegExp := RegExp.plus (RegExp.cls nameClass)

/-- Pattern `/^[0-9]+$/` of `validateStudentId`. -/
def idRegex : RegExp := RegExp.plus (RegExp.cls digitClass)

/-- Pattern `/^[^\s@]+@[^\s@]+\.[^\s@]+$/`. -/
def emailRegex : RegExp :=
  RegExp.seq (RegExp.plus (RegExp.cls emailClass))
    (RegExp.seq (RegExp.chr 64)
      (RegExp.seq (RegExp.plus (RegExp.cls emailClass))
        (RegExp.seq (RegExp.chr 46) (RegExp.plus (RegExp.cls emailClass)))))

/-- Pattern `/^[0-9]+$/` of `validateContact`. -/
def contactRegex : RegExp := RegExp.plus (RegExp.cls digitClass)

/-- Function `validateName`. -/
def validateName (name : JSString) : Validation :=
  if trim name = [] then ⟨false, "Name is required"⟩
  else if !(nameRegex.test name) then ⟨false, "Name should contain only letters"⟩
  else if (trim name).length < 2 then ⟨false, "Name must be at least 2 characters"⟩
  else ⟨true, ""⟩

/-- Function `validateStudentId`. -/
def validateStudentId (id : JSString) : Validation :=
  if trim id = [] then ⟨false, "Student ID is required"⟩
  else if !(idRegex.test id) then ⟨false, "Student ID should contain only numbers"⟩
  else ⟨true, ""⟩

/-- Function `validateEmail`. -/
def validateEmail (email : JSString) : Validation :=
  if trim email = [] then ⟨false, "Email is required"⟩
  else if !(emailRegex.test email) then ⟨false, "Please enter a valid email address"⟩
  else ⟨true, ""⟩

/-- Function `validateContact`. -/
def validateContact (contact : JSString) : Validation :=
  if trim contact = [] then ⟨false, "Contact number is required"⟩
  else if !(contactRegex.test contact) then
    ⟨false, "Contact number should contain only numbers"⟩
  else if contact.length < 10 then ⟨false, "Contact number must be at least 10 digits"⟩
  else ⟨true, ""⟩

/-! ## Local storage -/

/-- A stored student record. -/
structure Student where
  uniqueId : JSString
  name : JSString
  id : JSString
  email : JSString
  contact : JSString
  deriving DecidableEq, Repr

/-- The object read from a form: the raw values of its four inputs. -/
structure FormData where
  name : JSString
  id : JSString
  email : JSString
  contact : JSString
  deriving DecidableEq, Repr

/-- The browser's `localStorage`, restricted to the key `'students'`.
`students` is the stored value (`none` when the key is absent) and `writes`
counts the calls of `setItem` made so far. -/
structure LocalStorage where
  students : Option (List Student)
  writes : Nat
  deriving DecidableEq, Repr

/-- Function `getStudentsFromStorage`. -/
def getStudentsFromStorage (storage : LocalStorage) : List Student :=
  match storage.students with
  | some students => students
  | none => []

/-- Function `saveStudentsToStorage`. -/
def saveStudentsToStorage (storage : LocalStorage) (students : List Student) :
    LocalStorage :=
  { students := some students, writes := storage.writes + 1 }

/-- Decimal digits of a natural number, most significant first, as code units. -/
def decimalCore : Nat → Nat → JSString → JSString
  | 0, _, acc => acc
  | fuel + 1, n, acc =>
      if n / 10 = 0 then (48 + n % 10) :: acc
      else decimalCore fuel (n / 10) ((48 + n % 10) :: acc)

/-- Method `Number.prototype.toString` on an integral time value. -/
def numberToString (n : Int) : JSString :=
  if n < 0 then 45 :: decimalCore (n.natAbs + 1) n.natAbs []
  else decimalCore (n.toNat + 1) n.toNat []

/-- Function `generateUniqueId`; `now` is the value of `Date.now()`. -/
def generateUniqueId (now : Int) : JSString := numberToString now

/-! ## CRUD operations -/

/-- The mutable state the operations work on: the storage and the global
variable `editingStudentId` (`none` is `null`). -/
structure App where
  storage : LocalStorage
  editingStudentId : Option JSString
  deriving DecidableEq, Repr

/-- Method `Array.prototype.findIndex`; `none` stands for `-1`. -/
def findIndex (p : Student → Bool) : (students : List Student) → Option (Fin students.length)
  | [] => none
  | s :: rest => if p s then some ⟨0, Nat.succ_pos _⟩ else (findIndex p rest).map Fin.succ

/-- Function `addStudent`; `now` is the value `Date.now()` returns in
`generateUniqueId`. -/
def addStudent (now : Int) (studentData : FormData) (app : App) : App :=
  let students := getStudentsFromStorage app.storage
  let newStudent : Student :=
    { uniqueId := generateUniqueId now
      name := trim studentData.name
      id := trim studentData.id
      email := trim studentData.email
      contact := trim studentData.contact }
  { app with storage := saveStudentsToStorage app.storage (students ++ [newStudent]) }

/-- Function `editStudent`, as far as the state is concerned. -/
def editStudent (uniqueId : JSString) (app : App) : App :=
  let students := getStudentsFromStorage app.storage
  match students.find? (fun s => s.uniqueId == uniqueId) with
  | none => app
  | some _ => { app with editingStudentId := some uniqueId }

/-- Function `closeEditModal`, as far as the state is concerned. -/
def closeEditModal (app : App) : App := { app with editingStudentId := none }

/-- Function `updateStudent`. -/
def updateStudent (updatedData : FormData) (app : App) : App :=
  let students := getStudentsFromStorage app.storage
  match findIndex (fun s => some s.uniqueId == app.editingStudentId) students with
  | none => app
  | some index =>
      let students := students.set index.val
        { students.get index with
          name := trim updatedData.name
          id := trim updatedData.id
          email := trim updatedData.email
          contact := trim updatedData.contact }
      closeEditModal { app with storage := saveStudentsToStorage app.storage students }

/-- Function `deleteStudent`; `confirmed` is the answer of `confirm(...)`. -/
def deleteStudent (confirmed : Bool) (uniqueId : JSString) (app : App) : App :=
  if !confirmed then app
  else
    let students := getStudentsFromStorage app.storage
    let filteredStudents := students.filter (fun s => s.uniqueId != uniqueId)
    { app with storage := saveStudentsToStorage app.storage filteredStudents }

/-- A call of one of the three mutating operations, with its inputs. For
`update`, `target` is the value of `editingStudentId` at the call. -/
inductive Call where
  | add (now : Int) (studentData : FormData)
  | update (target : Option JSString) (updatedData : FormData)
  | delete (confirmed : Bool) (uniqueId : JSString)

/-- Effect of one call on the state. -/
def Call.run : Call → App → App
  | .add now studentData, app => addStudent now studentData app
  | .update target updatedData, app =>
      updateStudent updatedData { app with editingStudentId := target }
  | .delete confirmed uniqueId, app => deleteStudent confirmed uniqueId app

/-- Effect of a sequence of calls, first call first. -/
def runCalls (calls : List Call) (app : App) : App :=
  calls.foldl (fun a c => c.run a) app

/-- The values `Date.now()` returned to the `addStudent` calls of a sequence,
in order. -/
def addInstants : List Call → List Int
  | [] => []
  | Call.add now _ :: rest => now :: addInstants rest
  | Call.update _ _ :: rest => addInstants rest
  | Call.delete _ _ :: rest => addInstants rest

/-- The stored uniqueIds, in order. -/
def storedIds (app : App) : List JSString :=
  (getStudentsFromStorage app.storage).map (fun s => s.uniqueId)

/-- The number written by a string of decimal digits. -/
def decimalValue (digits : JSString) : Nat := digits.foldl (fun a d => 10 * a + (d - 48)) 0

/-- The state of a browser that has never stored anything. -/
def emptyApp : App := { storage := { students := none, writes := 0 }, editingStudentId := none }

/-! ## Error display -/

/-- What the program reads and writes of a DOM element: whether its
`classList` contains `'error'`, and its `textContent`. -/
structure Element where
  errorClass : Bool
  textContent : String
  deriving DecidableEq, Repr

/-- The document: `document.getElementById`, `none` being `null`. -/
abbrev Document := String → Option Element

/-- The document with the element `id` replaced. -/
def Document.set (doc : Document) (id : String) (e : Element) : Document :=
  fun i => if i = id then some e else doc i

/-- Result of running code against the document: it returns a value, or it
throws a `TypeError` (a property of `null` was read); either way the document
is left in some state. -/
inductive Outcome (α : Type) where
  | returned (value : α) (doc : Document)
  | threw (doc : Document)

/-- Code that runs against the document. -/
def DomM (α : Type) : Type := Document → Outcome α

instance : Monad DomM where
  pure a := fun doc => Outcome.returned a doc
  bind m f := fun doc =>
    match m doc with
    | Outcome.returned a doc1 => f a doc1
    | Outcome.threw doc1 => Outcome.threw doc1

/-- Function `showError`. -/
def showError (fieldId errorId message : String) : DomM Unit := fun doc =>
  match doc fieldId with
  | none => Outcome.threw doc
  | some field =>
      let doc1 := doc.set fieldId { field with errorClass := true }
      match doc1 errorId with
      | none => Outcome.threw doc1
      | some errorElement =>
          Outcome.returned () (doc1.set errorId { errorElement with textContent := message })

/-- Function `clearError`. -/
def clearError (fieldId errorId : String) : DomM Unit := fun doc =>
  match doc fieldId with
  | none => Outcome.threw doc
  | some field =>
      let doc1 := doc.set fieldId { field with errorClass := false }
      match doc1 errorId with
      | none => Outcome.threw doc1
      | some errorElement =>
          Outcome.returned () (doc1.set errorId { errorElement with textContent := "" })

/-- Function `validateForm`; `pfx` is its parameter `prefix`. -/
def validateForm (formData : FormData) (pfx : String) : DomM Bool := do
  let mut isValid := true
  let nameValidation := validateName formData.name
  if !nameValidation.isValid then
    showError (pfx ++ "studentName") (pfx ++ "nameError") nameValidation.message
    isValid := false
  else
    clearError (pfx ++ "studentName") (pfx ++ "nameError")
  let idValidation := validateStudentId formData.id
  if !idValidation.isValid then
    showError (pfx ++ "studentId") (pfx ++ "idError") idValidation.message
    isValid := false
  else
    clearError (pfx ++ "studentId") (pfx ++ "idError")
  let emailValidation := validateEmail formData.email
  if !emailValidation.isValid then
    showError (pfx ++ "email") (pfx ++ "emailError") emailValidation.message
    isValid := false
  else
    clearError (pfx ++ "email") (pfx ++ "emailError")
  let contactValidation := validateContact formData.contact
  if !contactValidation.isValid then
    showError (pfx ++ "contactNumber") (pfx ++ "contactError") contactValidation.message
    isValid := false
  else
    clearError (pfx ++ "contactNumber") (pfx ++ "contactError")
  return isValid

/-- Ids of the input and error-message elements the program looks up by a
literal id: those of the main form (submit and reset handlers, input
listeners) and those of the edit form (`editStudent`, `closeEditModal`, input
listeners). -/
def pageIds : List String :=
  ["studentName", "nameError", "studentId", "idError", "email", "emailError",
   "contactNumber", "contactError",
   "editStudentName", "editNameError", "editStudentId", "editIdError",
   "editEmail", "editEmailError", "editContactNumber", "editContactError"]

/-- A document holding exactly the elements of `pageIds`, none showing an
error. -/
def pageDocument : Document :=
  fun i => if i ∈ pageIds then some { errorClass := false, textContent := "" } else none

/-! ## Sample inputs -/

/-- A stored record with uniqueId `17`. -/
def sampleRecord : Student :=
  { uniqueId := js "17", name := js "Jo", id := js "1", email := js "j@o.io",
    contact := js "9876543210" }

/-- Raw values of a form, the name with surrounding blanks. -/
def sampleForm : FormData :=
  { name := js " Al ", id := js "7", email := js "a@b.c", contact := js "0123456789" }

/-- A state whose storage holds `sampleRecord` and in which no record is being
edited. -/
def sampleApp : App :=
  { storage := { students := some [sampleRecord], writes := 1 }, editingStudentId := none }

/-- The state `sampleApp` after `editStudent('17')`. -/
def sampleAppEditing : App := editStudent (js "17") sampleApp

/-- The end-to-end example of the specification, as a form. -/
def janeForm : FormData :=
  { name := js "Jane Doe", id := js "1001", email := js "jane@x.com",
    contact := js "9876543210" }

/-- What an operation returns from a run against the document, `none` when it
threw. -/
def Outcome.value? {α : Type} : Outcome α → Option α
  | Outcome.returned value _ => some value
  | Outcome.threw _ => none

/-- The document an operation leaves behind. -/
def Outcome.document {α : Type} : Outcome α → Document
  | Outcome.returned _ doc => doc
  | Outcome.threw doc => doc

/-! ## Vocabulary of the specification -/

/-- An ASCII letter, `A` to `Z` or `a` to `z`. -/
def isAsciiLetter (c : Nat) : Prop := (65 ≤ c ∧ c ≤ 90) ∨ (97 ≤ c ∧ c ≤ 122)

instance : DecidablePred isAsciiLetter := fun c => by
  unfold isAsciiLetter
  infer_instance

/-- An ASCII digit, `0` to `9`. -/
def isAsciiDigit (c : Nat) : Prop := 48 ≤ c ∧ c ≤ 57

instance : DecidablePred isAsciiDigit := fun c => by
  unfold isAsciiDigit
  infer_instance

/-- The class `[A-Za-z ]` of the specification: an ASCII letter or the space
character. -/
def isLetterOrSpace (c : Nat) : Prop := isAsciiLetter c ∨ c = 32

instance : DecidablePred isLetterOrSpace := fun c => by
  unfold isLetterOrSpace
  infer_instance

/-- The shape of an address as the specification words it: no white space,
exactly one `@`, something before it, and after it a domain holding a `.` that
is neither its first nor its last character. -/
def WellFormedEmail (raw : JSString) : Prop :=
  (∀ c ∈ raw, isWhiteSpace c = false) ∧ raw.count 64 = 1 ∧
    ∃ loc dom, raw = loc ++ 64 :: dom ∧ loc ≠ [] ∧
      ∃ b c, dom = b ++ 46 :: c ∧ b ≠ [] ∧ c ≠ []

/-- The error state of a field, as displayed by `doc`, is the one its verdict
`v` calls for: after a failure the input carries the class `error` and the
error element shows the message; after a pass the class is removed and the
error element is empty. -/
def ShowsVerdict (doc : Document) (fieldId errorId : String) (v : Validation) : Prop :=
  (doc fieldId).map Element.errorClass = some (!v.isValid) ∧
  (doc errorId).map Element.textContent = some (if v.isValid then "" else v.message)

/-- Ids, without the prefix, of the eight elements `validateForm` looks up. -/
def formIds : List String :=
  ["studentName", "nameError", "studentId", "idError", "email", "emailError",
   "contactNumber", "contactError"]

/-- The field constraints of the data model, on a stored record: `name` is
non-empty after trimming, matches `^[A-Za-z\s]+$` and has trimmed length at
least 2; `id` is non-empty after trimming and matches `^[0-9]+$`; `email` is
non-empty after trimming and matches `^[^\s@]+@[^\s@]+\.[^\s@]+$`; `contact`
is non-empty after trimming, matches `^[0-9]+$` and has untrimmed length at
least 10. -/
def MeetsFieldConstraints (r : Student) : Prop :=
  (trim r.name ≠ [] ∧ nameRegex.test r.name = true ∧ 2 ≤ (trim r.name).length) ∧
  (trim r.id ≠ [] ∧ idRegex.test r.id = true) ∧
  (trim r.email ≠ [] ∧ emailRegex.test r.email = true) ∧
  (trim r.contact ≠ [] ∧ contactRegex.test r.contact = true ∧ 10 ≤ r.contact.length)

/-! # Theorems -/

/-! ## The matcher computes the language -/

namespace RegExp

theorem matches_seq_iff (r s : RegExp) (t : JSString) :
    Matches (seq r s) t ↔ ∃ a b, t = a ++ b ∧ Matches r a ∧ Matches s b := by
  constructor
  · intro h
    cases h with
    | seq ha hb => exact ⟨_, _, rfl, ha, hb⟩
  · rintro ⟨a, b, rfl, ha, hb⟩
    exact Matches.seq ha hb

theorem matches_alt_iff (r s : RegExp) (t : JSString) :
    Matches (alt r s) t ↔ Matches r t ∨ Matches s t := by
  constructor
  · intro h
    cases h with
    | altLeft h => exact Or.inl h
    | altRight h => exact Or.inr h
  · rintro (h | h)
    · exact Matches.altLeft h
    · exact Matches.altRight h

theorem matches_cls_iff (p : Nat → Bool) (t : JSString) :
    Matches (cls p) t ↔ ∃ c, t = [c] ∧ p c = true := by
  constructor
  · intro h
    cases h with
    | cls hc => exact ⟨_, rfl, hc⟩
  · rintro ⟨c, rfl, hc⟩
    exact Matches.cls hc

theorem matches_chr_iff (c : Nat) (t : JSString) : Matches (chr c) t ↔ t = [c] := by
  unfold chr
  rw [matches_cls_iff]
  constructor
  · rintro ⟨d, rfl, hd⟩
    simp at hd
    rw [hd]
  · rintro rfl
    exact ⟨c, rfl, by simp⟩

theorem not_matches_never (t : JSString) : ¬ Matches never t := by
  intro h
  cases h

theorem matches_empty_iff (t : JSString) : Matches empty t ↔ t = [] := by
  constructor
  · intro h
    cases h
    rfl
  · rintro rfl
    exact Matches.empty

theorem nullable_of_matches {r : RegExp} {t : JSString} (h : Matches r t) :
    t = [] → nullable r = true := by
  induction h with
  | empty => intro _; rfl
  | cls _ => intro h; cases h
  | seq _ _ iha ihb =>
      intro h
      obtain ⟨h1, h2⟩ := List.append_eq_nil.mp h
      simp [nullable, iha h1, ihb h2]
  | altLeft _ ih => intro h; simp [nullable, ih h]
  | altRight _ ih => intro h; simp [nullable, ih h]
  | starNil => intro _; rfl
  | starCons _ _ _ _ => intro _; rfl

theorem matches_nil_of_nullable : ∀ (r : RegExp), nullable r = true → Matches r []
  | never, h => by simp [nullable] at h
  | empty, _ => Matches.empty
  | cls _, h => by simp [nullable] at h
  | seq r s, h => by
      simp only [nullable, Bool.and_eq_true] at h
      exact Matches.seq (a := []) (b := []) (matches_nil_of_nullable r h.1)
        (matches_nil_of_nullable s h.2)
  | alt r s, h => by
      simp only [nullable, Bool.or_eq_true] at h
      rcases h with h | h
      · exact Matches.altLeft (matches_nil_of_nullable r h)
      · exact Matches.altRight (matches_nil_of_nullable s h)
  | star _, _ => Matches.starNil

theorem nullable_iff (r : RegExp) : nullable r = true ↔ Matches r [] :=
  ⟨matches_nil_of_nullable r, fun h => nullable_of_matches h rfl⟩

/-- A non-empty match of `star r` starts with a non-empty match of `r`. -/
theorem matches_star_cons {r : RegExp} {t : JSString} (h : Matches r t) :
    ∀ (q : RegExp) (c : Nat) (u : JSString), r = star q → t = c :: u →
      ∃ a b, u = a ++ b ∧ Matches q (c :: a) ∧ Matches (star q) b := by
  induction h with
  | empty => intro q c u hr; cases hr
  | cls _ => intro q c u hr; cases hr
  | seq _ _ _ _ => intro q c u hr; cases hr
  | altLeft _ _ => intro q c u hr; cases hr
  | altRight _ _ => intro q c u hr; cases hr
  | starNil => intro q c u _ ht; cases ht
  | @starCons r0 a b ha hb _ ihb =>
      intro q c u hr ht
      cases hr
      cases a with
      | nil => exact ihb _ c u rfl (by simpa using ht)
      | cons x a =>
          simp only [List.cons_append, List.cons.injEq] at ht
          obtain ⟨rfl, rfl⟩ := ht
          exact ⟨a, b, rfl, ha, hb⟩

theorem matches_deriv_iff : ∀ (r : RegExp) (c : Nat) (t : JSString),
    Matches (deriv r c) t ↔ Matches r (c :: t)
  | never, c, t => by
      simp only [deriv]
      exact ⟨fun h => (not_matches_never _ h).elim, fun h => (not_matches_never _ h).elim⟩
  | empty, c, t => by
      simp only [deriv, matches_empty_iff]
      exact ⟨fun h => (not_matches_never _ h).elim, fun h => by cases h⟩
  | cls p, c, t => by
      simp only [deriv, matches_cls_iff]
      by_cases hp : p c = true
      · simp only [hp, if_true, matches_empty_iff]
        constructor
        · rintro rfl
          exact ⟨c, rfl, hp⟩
        · rintro ⟨d, hd, _⟩
          simp only [List.cons.injEq] at hd
          exact hd.2
      · simp only [hp, if_false]
        constructor
        · intro h
          exact (not_matches_never _ h).elim
        · rintro ⟨d, hd, hpd⟩
          simp only [List.cons.injEq] at hd
          rw [← hd.1] at hpd
          exact (hp hpd).elim
  | seq r s, c, t => by
      have ihr := matches_deriv_iff r c
      have ihs := matches_deriv_iff s c
      have key : Matches (seq r s) (c :: t) ↔
          (∃ a b, t = a ++ b ∧ Matches r (c :: a) ∧ Matches s b) ∨
            (Matches r [] ∧ Matches s (c :: t)) := by
        rw [matches_seq_iff]
        constructor
        · rintro ⟨a, b, hab, ha, hb⟩
          cases a with
          | nil =>
              simp only [List.nil_append] at hab
              rw [← hab] at hb
              exact Or.inr ⟨ha, hb⟩
          | cons x a =>
              simp only [List.cons_append, List.cons.injEq] at hab
              obtain ⟨rfl, rfl⟩ := hab
              exact Or.inl ⟨a, b, rfl, ha, hb⟩
        · rintro (⟨a, b, rfl, ha, hb⟩ | ⟨ha, hb⟩)
          · exact ⟨c :: a, b, rfl, ha, hb⟩
          · exact ⟨[], c :: t, rfl, ha, hb⟩
      rw [key]
      by_cases hn : nullable r = true
      · have hr : Matches r [] := (nullable_iff r).mp hn
        rw [deriv, if_pos hn, matches_alt_iff, matches_seq_iff, ihs]
        simp only [ihr, hr, true_and]
      · have hr : ¬ Matches r [] := fun h => hn ((nullable_iff r).mpr h)
        rw [deriv, if_neg hn, matches_seq_iff]
        simp only [ihr, hr, false_and, or_false]
  | alt r s, c, t => by
      simp only [deriv, matches_alt_iff, matches_deriv_iff r c, matches_deriv_iff s c]
  | star r, c, t => by
      simp only [deriv, matches_seq_iff, matches_deriv_iff r c]
      constructor
      · rintro ⟨a, b, rfl, ha, hb⟩
        exact Matches.starCons (a := c :: a) ha hb
      · intro h
        exact matches_star_cons h r c t rfl rfl

/-- The derivative matcher decides the language of the expression. -/
theorem test_iff : ∀ (t : JSString) (r : RegExp), test r t = true ↔ Matches r t
  | [], r => by simp only [test, nullable_iff]
  | c :: t, r => by simp only [test, test_iff t (deriv r c), matches_deriv_iff]

theorem matches_star_cls_iff (p : Nat → Bool) :
    ∀ (t : JSString), Matches (star (cls p)) t ↔ ∀ c ∈ t, p c = true
  | [] => by
      simp only [List.not_mem_nil, false_imp_iff, implies_true, iff_true]
      exact Matches.starNil
  | c :: t => by
      have ih := matches_star_cls_iff p t
      rw [← matches_deriv_iff]
      simp only [deriv, matches_seq_iff, List.mem_cons, forall_eq_or_imp]
      by_cases hp : p c = true
      · rw [if_pos hp]
        constructor
        · rintro ⟨a, b, hab, ha, hb⟩
          rw [(matches_empty_iff a).mp ha, List.nil_append] at hab
          rw [← hab] at hb
          exact ⟨hp, ih.mp hb⟩
        · intro h
          exact ⟨[], t, rfl, Matches.empty, ih.mpr h.2⟩
      · rw [if_neg hp]
        constructor
        · rintro ⟨a, b, _, ha, _⟩
          exact (not_matches_never _ ha).elim
        · intro h
          exact (hp h.1).elim

theorem matches_plus_cls_iff (p : Nat → Bool) (t : JSString) :
    Matches (plus (cls p)) t ↔ t ≠ [] ∧ ∀ c ∈ t, p c = true := by
  unfold plus
  rw [matches_seq_iff]
  constructor
  · rintro ⟨a, b, rfl, ha, hb⟩
    obtain ⟨c, rfl, hc⟩ := (matches_cls_iff p a).mp ha
    refine ⟨by simp, ?_⟩
    intro d hd
    simp only [List.singleton_append, List.mem_cons] at hd
    rcases hd with rfl | hd
    · exact hc
    · exact (matches_star_cls_iff p b).mp hb d hd
  · rintro ⟨hne, hall⟩
    cases t with
    | nil => exact (hne rfl).elim
    | cons c t =>
        refine ⟨[c], t, rfl, Matches.cls (hall c (List.mem_cons_self _ _)), ?_⟩
        exact (matches_star_cls_iff p t).mpr (fun d hd => hall d (List.mem_cons_of_mem _ hd))

/-- Pattern `/^[...]+$/` tested on `t`: the input is non-empty and every code unit is in the
class. -/
theorem test_plus_cls (p : Nat → Bool) (t : JSString) :
    test (plus (cls p)) t = true ↔ t ≠ [] ∧ ∀ c ∈ t, p c = true := by
  rw [test_iff, matches_plus_cls_iff]

end RegExp

/-! ## Trimming -/

theorem dropWhile_eq_nil_of_head_not {p : Nat → Bool} :
    ∀ {s : JSString}, (∀ c ∈ s.dropWhile p, p c = true) → ∀ c ∈ s, p c = true
  | [], _, c, hc => by cases hc
  | x :: s, h, c, hc => by
      by_cases hx : p x = true
      · rw [List.dropWhile_cons_of_pos hx] at h
        rcases List.mem_cons.mp hc with rfl | hc
        · exact hx
        · exact dropWhile_eq_nil_of_head_not h c hc
      · rw [List.dropWhile_cons_of_neg hx] at h
        exact (hx (h x (List.mem_cons_self _ _))).elim

theorem trim_eq_nil_iff (s : JSString) : trim s = [] ↔ ∀ c ∈ s, isWhiteSpace c = true := by
  unfold trim trimEnd
  rw [List.reverse_eq_nil_iff, List.dropWhile_eq_nil_iff]
  constructor
  · intro h
    apply dropWhile_eq_nil_of_head_not
    intro c hc
    exact h c (List.mem_reverse.mpr hc)
  · intro h c hc
    exact h c ((List.dropWhile_sublist _).subset (List.mem_reverse.mp hc))

theorem trim_ne_nil_of_mem {s : JSString} {c : Nat} (hc : c ∈ s)
    (hw : isWhiteSpace c = false) : trim s ≠ [] := by
  intro h
  have := (trim_eq_nil_iff s).mp h c hc
  rw [hw] at this
  cases this

theorem ne_nil_of_trim_ne_nil {s : JSString} (h : trim s ≠ []) : s ≠ [] := by
  rintro rfl
  exact h rfl

theorem isWhiteSpace_false_of_digit {c : Nat} (h : digitClass c = true) :
    isWhiteSpace c = false := by
  simp only [digitClass, Bool.and_eq_true, decide_eq_true_eq] at h
  simp only [isWhiteSpace, Bool.or_eq_false_iff, Bool.and_eq_false_iff, beq_eq_false_iff_ne,
    decide_eq_false_iff_not]
  omega

theorem digitClass_iff (c : Nat) : digitClass c = true ↔ isAsciiDigit c := by
  simp [digitClass, isAsciiDigit]

theorem nameClass_iff (c : Nat) :
    nameClass c = true ↔ (isAsciiLetter c ∨ isWhiteSpace c = true) := by
  simp only [nameClass, isAsciiLetter, Bool.or_eq_true, Bool.and_eq_true, decide_eq_true_eq]
  tauto

/-! ## Validators -/

theorem nameRegex_test_iff (s : JSString) :
    nameRegex.test s = true ↔ s ≠ [] ∧ ∀ c ∈ s, nameClass c = true :=
  RegExp.test_plus_cls nameClass s

theorem idRegex_test_iff (s : JSString) :
    idRegex.test s = true ↔ s ≠ [] ∧ ∀ c ∈ s, digitClass c = true :=
  RegExp.test_plus_cls digitClass s

theorem contactRegex_test_iff (s : JSString) :
    contactRegex.test s = true ↔ s ≠ [] ∧ ∀ c ∈ s, digitClass c = true :=
  RegExp.test_plus_cls digitClass s

/-- C5: `validateName` decides in this order: `Required` when the trimmed
input is empty; otherwise `InvalidFormat` when the raw input holds a character
that is neither an ASCII letter nor white space; otherwise `TooShort` when the
trimmed length is below 2; otherwise it passes with an empty message. -/
theorem validateName_decision_order (raw : JSString) :
    validateName raw =
      if trim raw = [] then ⟨false, "Name is required"⟩
      else if ∃ c ∈ raw, ¬ (isAsciiLetter c ∨ isWhiteSpace c = true) then
        ⟨false, "Name should contain only letters"⟩
      else if (trim raw).length < 2 then ⟨false, "Name must be at least 2 characters"⟩
      else ⟨true, ""⟩ := by
  unfold validateName
  by_cases ht : trim raw = []
  · rw [if_pos ht, if_pos ht]
  · rw [if_neg ht, if_neg ht]
    have hiff : nameRegex.test raw = true ↔
        ¬ ∃ c ∈ raw, ¬ (isAsciiLetter c ∨ isWhiteSpace c = true) := by
      rw [nameRegex_test_iff]
      constructor
      · rintro ⟨_, hall⟩ ⟨c, hc, hn⟩
        exact hn ((nameClass_iff c).mp (hall c hc))
      · intro h
        refine ⟨ne_nil_of_trim_ne_nil ht, fun c hc => (nameClass_iff c).mpr ?_⟩
        by_contra hn
        exact h ⟨c, hc, hn⟩
    by_cases hbad : ∃ c ∈ raw, ¬ (isAsciiLetter c ∨ isWhiteSpace c = true)
    · have htest : nameRegex.test raw = false := by
        cases hx : nameRegex.test raw
        · rfl
        · exact ((hiff.mp hx) hbad).elim
      rw [if_pos hbad, htest]
      rfl
    · rw [if_neg hbad, hiff.mpr hbad]
      rfl

/-- C6, as stated, fails: a tab is outside `[A-Za-z ]`, yet the name `a<TAB>b`
is accepted. -/
theorem validateName_accepts_tab :
    (∃ c ∈ js "a\tb", ¬ isLetterOrSpace c) ∧ validateName (js "a\tb") = ⟨true, ""⟩ := by
  decide

/-- C6, amended: every raw string holding a character that is neither an
ASCII letter nor white space (a character outside `[A-Za-z\s]`) is reported
`InvalidFormat` by `validateName`. -/
theorem validateName_invalidFormat (raw : JSString)
    (h : ∃ c ∈ raw, ¬ (isAsciiLetter c ∨ isWhiteSpace c = true)) :
    validateName raw = ⟨false, "Name should contain only letters"⟩ := by
  obtain ⟨c, hc, hn⟩ := h
  have hw : isWhiteSpace c = false := by
    cases hx : isWhiteSpace c
    · rfl
    · exact (hn (Or.inr hx)).elim
  have htest : nameRegex.test raw = false := by
    cases hx : nameRegex.test raw
    · rfl
    · exact (hn ((nameClass_iff c).mp (((nameRegex_test_iff raw).mp hx).2 c hc))).elim
  unfold validateName
  rw [if_neg (trim_ne_nil_of_mem hc hw), htest]
  rfl

theorem validateName_invalidFormat_witness :
    validateName (js "R2D2") = ⟨false, "Name should contain only letters"⟩ :=
  validateName_invalidFormat (js "R2D2") (by decide)

theorem digit_test_false_iff {r : RegExp} {raw : JSString}
    (hr : r.test raw = true ↔ raw ≠ [] ∧ ∀ c ∈ raw, digitClass c = true)
    (ht : trim raw ≠ []) : r.test raw = false ↔ ∃ c ∈ raw, ¬ isAsciiDigit c := by
  constructor
  · intro h
    by_contra hn
    have : r.test raw = true := by
      rw [hr]
      refine ⟨ne_nil_of_trim_ne_nil ht, fun c hc => (digitClass_iff c).mpr ?_⟩
      by_contra hd
      exact hn ⟨c, hc, hd⟩
    rw [h] at this
    cases this
  · rintro ⟨c, hc, hd⟩
    cases hx : r.test raw
    · rfl
    · exact (hd ((digitClass_iff c).mp ((hr.mp hx).2 c hc))).elim

/-- C7: `validateContact` reports `Required` when the trimmed input is empty;
otherwise `InvalidFormat` when the raw input holds a non-digit; otherwise
`TooShort` when the untrimmed length is below 10; otherwise it passes. So it
passes exactly when the raw input is made of ASCII digits only and has length
at least 10; `12345` is `TooShort`, `1234567890` passes, and ` 1234567890`
is `InvalidFormat`, hence neither passing nor `TooShort`. -/
theorem validateContact_decision_order (raw : JSString) :
    (validateContact raw =
      if trim raw = [] then ⟨false, "Contact number is required"⟩
      else if ∃ c ∈ raw, ¬ isAsciiDigit c then
        ⟨false, "Contact number should contain only numbers"⟩
      else if raw.length < 10 then ⟨false, "Contact number must be at least 10 digits"⟩
      else ⟨true, ""⟩) ∧
    (validateContact raw = ⟨true, ""⟩ ↔ (∀ c ∈ raw, isAsciiDigit c) ∧ 10 ≤ raw.length) ∧
    validateContact (js "12345") = ⟨false, "Contact number must be at least 10 digits"⟩ ∧
    validateContact (js "1234567890") = ⟨true, ""⟩ ∧
    validateContact (js " 1234567890") =
      ⟨false, "Contact number should contain only numbers"⟩ := by
  have chain : validateContact raw =
      if trim raw = [] then ⟨false, "Contact number is required"⟩
      else if ∃ c ∈ raw, ¬ isAsciiDigit c then
        ⟨false, "Contact number should contain only numbers"⟩
      else if raw.length < 10 then ⟨false, "Contact number must be at least 10 digits"⟩
      else ⟨true, ""⟩ := by
    unfold validateContact
    by_cases ht : trim raw = []
    · rw [if_pos ht, if_pos ht]
    · rw [if_neg ht, if_neg ht]
      have hiff := digit_test_false_iff (contactRegex_test_iff raw) ht
      by_cases hbad : ∃ c ∈ raw, ¬ isAsciiDigit c
      · rw [if_pos hbad, hiff.mpr hbad]
        rfl
      · have htest : contactRegex.test raw = true := by
          cases hx : contactRegex.test raw
          · exact (hbad (hiff.mp hx)).elim
          · rfl
        rw [if_neg hbad, htest]
        rfl
  refine ⟨chain, ?_, by decide, by decide, by decide⟩
  rw [chain]
  constructor
  · intro h
    by_cases ht : trim raw = []
    · rw [if_pos ht] at h
      cases h
    · rw [if_neg ht] at h
      by_cases hbad : ∃ c ∈ raw, ¬ isAsciiDigit c
      · rw [if_pos hbad] at h
        cases h
      · rw [if_neg hbad] at h
        by_cases hlen : raw.length < 10
        · rw [if_pos hlen] at h
          cases h
        · refine ⟨fun c hc => ?_, Nat.le_of_not_lt hlen⟩
          by_contra hd
          exact hbad ⟨c, hc, hd⟩
  · rintro ⟨hall, hlen⟩
    have hne : raw ≠ [] := by
      rintro rfl
      simp at hlen
    obtain ⟨c, hc⟩ := List.exists_mem_of_ne_nil raw hne
    have hw : isWhiteSpace c = false :=
      isWhiteSpace_false_of_digit ((digitClass_iff c).mpr (hall c hc))
    rw [if_neg (trim_ne_nil_of_mem hc hw), if_neg (fun ⟨d, hd, hn⟩ => hn (hall d hd)),
      if_neg (Nat.not_lt.mpr hlen)]

/-- C8: `validateStudentId` reports `Required` when the trimmed input is
empty, otherwise `InvalidFormat` when the raw input holds a non-digit,
otherwise it passes; the digit test reads the untrimmed value, so digits with
leading or trailing white space are reported `InvalidFormat`. -/
theorem validateStudentId_decision_order (raw : JSString) :
    (validateStudentId raw =
      if trim raw = [] then ⟨false, "Student ID is required"⟩
      else if ∃ c ∈ raw, ¬ isAsciiDigit c then
        ⟨false, "Student ID should contain only numbers"⟩
      else ⟨true, ""⟩) ∧
    ∀ leading digits trailing : JSString, raw = leading ++ digits ++ trailing →
      (∀ c ∈ leading, isWhiteSpace c = true) → (∀ c ∈ trailing, isWhiteSpace c = true) →
      leading ++ trailing ≠ [] → digits ≠ [] → (∀ c ∈ digits, isAsciiDigit c) →
      validateStudentId raw = ⟨false, "Student ID should contain only numbers"⟩ := by
  have chain : validateStudentId raw =
      if trim raw = [] then ⟨false, "Student ID is required"⟩
      else if ∃ c ∈ raw, ¬ isAsciiDigit c then
        ⟨false, "Student ID should contain only numbers"⟩
      else ⟨true, ""⟩ := by
    unfold validateStudentId
    by_cases ht : trim raw = []
    · rw [if_pos ht, if_pos ht]
    · rw [if_neg ht, if_neg ht]
      have hiff := digit_test_false_iff (idRegex_test_iff raw) ht
      by_cases hbad : ∃ c ∈ raw, ¬ isAsciiDigit c
      · rw [if_pos hbad, hiff.mpr hbad]
        rfl
      · have htest : idRegex.test raw = true := by
          cases hx : idRegex.test raw
          · exact (hbad (hiff.mp hx)).elim
          · rfl
        rw [if_neg hbad, htest]
        rfl
  refine ⟨chain, ?_⟩
  intro leading digits trailing hraw hl ht hne hd hdig
  rw [chain]
  obtain ⟨d, hdm⟩ := List.exists_mem_of_ne_nil digits hd
  have hdw : isWhiteSpace d = false :=
    isWhiteSpace_false_of_digit ((digitClass_iff d).mpr (hdig d hdm))
  have hdraw : d ∈ raw := by
    rw [hraw]
    simp [hdm]
  have hws : ∃ w, w ∈ raw ∧ isWhiteSpace w = true := by
    cases leading with
    | nil =>
        cases trailing with
        | nil => exact (hne rfl).elim
        | cons w t => exact ⟨w, by rw [hraw]; simp, ht w (List.mem_cons_self _ _)⟩
    | cons w l => exact ⟨w, by rw [hraw]; simp, hl w (List.mem_cons_self _ _)⟩
  obtain ⟨w, hwm, hww⟩ := hws
  have hbad : ∃ c ∈ raw, ¬ isAsciiDigit c := by
    refine ⟨w, hwm, fun hdw => ?_⟩
    have := isWhiteSpace_false_of_digit ((digitClass_iff w).mpr hdw)
    rw [hww] at this
    cases this
  rw [if_neg (trim_ne_nil_of_mem hdraw hdw), if_pos hbad]

theorem validateStudentId_decision_order_witness :
    validateStudentId (js " 123") = ⟨false, "Student ID should contain only numbers"⟩ ∧
    validateStudentId (js "123 ") = ⟨false, "Student ID should contain only numbers"⟩ :=
  ⟨(validateStudentId_decision_order (js " 123")).2 (js " ") (js "123") [] (by decide)
      (by decide) (by decide) (by decide) (by decide) (by decide),
   (validateStudentId_decision_order (js "123 ")).2 [] (js "123") (js " ") (by decide)
      (by decide) (by decide) (by decide) (by decide) (by decide)⟩

theorem emailClass_iff (c : Nat) :
    emailClass c = true ↔ isWhiteSpace c = false ∧ c ≠ 64 := by
  simp [emailClass]

/-- What `/^[^\s@]+@[^\s@]+\.[^\s@]+$/` accepts: three non-empty runs of
`[^\s@]` separated by `@` and `.`. -/
theorem emailRegex_test_iff (s : JSString) :
    emailRegex.test s = true ↔
      ∃ a b c, s = a ++ 64 :: (b ++ 46 :: c) ∧
        (a ≠ [] ∧ ∀ x ∈ a, emailClass x = true) ∧
        (b ≠ [] ∧ ∀ x ∈ b, emailClass x = true) ∧
        (c ≠ [] ∧ ∀ x ∈ c, emailClass x = true) := by
  rw [RegExp.test_iff]
  unfold emailRegex
  simp only [RegExp.matches_seq_iff, RegExp.matches_chr_iff, RegExp.matches_plus_cls_iff]
  constructor
  · rintro ⟨a, r1, rfl, ha, at1, r2, rfl, rfl, b, r3, rfl, hb, dot, c, rfl, rfl, hc⟩
    exact ⟨a, b, c, by simp, ha, hb, hc⟩
  · rintro ⟨a, b, c, rfl, ha, hb, hc⟩
    exact ⟨a, _, rfl, ha, [64], _, rfl, rfl, b, _, rfl, hb, [46], c, rfl, rfl, hc⟩

theorem emailRegex_test_iff_wellFormed (s : JSString) :
    emailRegex.test s = true ↔ WellFormedEmail s := by
  rw [emailRegex_test_iff]
  unfold WellFormedEmail
  constructor
  · rintro ⟨a, b, c, rfl, ⟨ha, haa⟩, ⟨hb, hba⟩, ⟨hc, hca⟩⟩
    have nows : ∀ l : JSString, (∀ x ∈ l, emailClass x = true) →
        ∀ x ∈ l, isWhiteSpace x = false := fun l hl x hx => ((emailClass_iff x).mp (hl x hx)).1
    have noat : ∀ l : JSString, (∀ x ∈ l, emailClass x = true) → l.count 64 = 0 := by
      intro l hl
      rw [List.count_eq_zero]
      intro hmem
      exact ((emailClass_iff 64).mp (hl 64 hmem)).2 rfl
    refine ⟨?_, ?_, a, b ++ 46 :: c, rfl, ha, b, c, rfl, hb, hc⟩
    · intro x hx
      simp only [List.mem_append, List.mem_cons] at hx
      rcases hx with hx | rfl | hx | rfl | hx
      · exact nows a haa x hx
      · decide
      · exact nows b hba x hx
      · decide
      · exact nows c hca x hx
    · simp [List.count_append, List.count_cons, noat a haa, noat b hba, noat c hca]
  · rintro ⟨hws, hcount, loc, dom, rfl, hloc, b, c, rfl, hb, hc⟩
    simp only [List.count_append, List.count_cons, beq_self_eq_true, if_true] at hcount
    have h46 : ((46 : Nat) == 64) = false := by decide
    simp only [h46] at hcount
    have hl0 : List.count 64 loc = 0 := by omega
    have hb0 : List.count 64 b = 0 := by omega
    have hc0 : List.count 64 c = 0 := by omega
    have cls : ∀ l : JSString, (∀ x ∈ l, isWhiteSpace x = false) → List.count 64 l = 0 →
        ∀ x ∈ l, emailClass x = true := by
      intro l hl h0 x hx
      refine (emailClass_iff x).mpr ⟨hl x hx, ?_⟩
      rintro rfl
      exact (List.count_eq_zero.mp h0) hx
    refine ⟨loc, b, c, rfl, ⟨hloc, cls loc (fun x hx => hws x ?_) hl0⟩,
      ⟨hb, cls b (fun x hx => hws x ?_) hb0⟩, ⟨hc, cls c (fun x hx => hws x ?_) hc0⟩⟩
    · simp [hx]
    · simp [hx]
    · simp [hx]

/-- C9: `validateEmail` reports `Required` when the trimmed input is empty;
otherwise it passes exactly when the raw input has no white space, exactly one
`@`, a character before it, and after it a domain holding a `.` that is
neither its first nor its last character; every other input is reported
`InvalidFormat`. -/
theorem validateEmail_decision (raw : JSString) :
    (trim raw = [] → validateEmail raw = ⟨false, "Email is required"⟩) ∧
    (trim raw ≠ [] → ((validateEmail raw = ⟨true, ""⟩ ↔ WellFormedEmail raw) ∧
      (¬ WellFormedEmail raw →
        validateEmail raw = ⟨false, "Please enter a valid email address"⟩))) := by
  unfold validateEmail
  refine ⟨fun ht => by rw [if_pos ht], fun ht => ?_⟩
  rw [if_neg ht, ← emailRegex_test_iff_wellFormed]
  cases hx : emailRegex.test raw
  · refine ⟨?_, fun _ => rfl⟩
    constructor
    · intro h
      simp at h
    · intro h
      cases h
  · exact ⟨⟨fun _ => rfl, fun _ => rfl⟩, fun h => (h rfl).elim⟩

theorem validateEmail_decision_witness :
    validateEmail (js "  ") = ⟨false, "Email is required"⟩ ∧
    (validateEmail (js "jane@x.com") = ⟨true, ""⟩ ↔ WellFormedEmail (js "jane@x.com")) ∧
    validateEmail (js "jane@x.") = ⟨false, "Please enter a valid email address"⟩ :=
  ⟨(validateEmail_decision (js "  ")).1 (by decide),
   ((validateEmail_decision (js "jane@x.com")).2 (by decide)).1,
   ((validateEmail_decision (js "jane@x.")).2 (by decide)).2 (fun h => by
      have h1 := ((validateEmail_decision (js "jane@x.")).2 (by decide)).1.mpr h
      revert h1
      decide)⟩

/-! ## Roster store -/

theorem decimalCore_ne_nil : ∀ (fuel n : Nat) (acc : JSString), acc ≠ [] →
    decimalCore fuel n acc ≠ []
  | 0, _, _, h => h
  | fuel + 1, n, acc, _ => by
      unfold decimalCore
      split
      · exact List.cons_ne_nil _ _
      · exact decimalCore_ne_nil fuel (n / 10) _ (List.cons_ne_nil _ _)

theorem decimalCore_succ_ne_nil (fuel n : Nat) : decimalCore (fuel + 1) n [] ≠ [] := by
  unfold decimalCore
  split
  · exact List.cons_ne_nil _ _
  · exact decimalCore_ne_nil fuel (n / 10) _ (List.cons_ne_nil _ _)

theorem generateUniqueId_ne_nil (now : Int) : generateUniqueId now ≠ [] := by
  unfold generateUniqueId numberToString
  split
  · exact List.cons_ne_nil _ _
  · exact decimalCore_succ_ne_nil _ _

theorem getStudents_save (storage : LocalStorage) (students : List Student) :
    getStudentsFromStorage (saveStudentsToStorage storage students) = students := rfl

/-- C1: after `addStudent` the collection read back by
`getStudentsFromStorage` is the previous collection with exactly one record
appended at the end; its `name`, `id`, `email` and `contact` are the trimmed
inputs and its `uniqueId` is a non-empty string. -/
theorem addStudent_appends_record (now : Int) (studentData : FormData) (app : App) :
    ∃ r : Student,
      getStudentsFromStorage (addStudent now studentData app).storage =
        getStudentsFromStorage app.storage ++ [r] ∧
      r.name = trim studentData.name ∧ r.id = trim studentData.id ∧
      r.email = trim studentData.email ∧ r.contact = trim studentData.contact ∧
      r.uniqueId ≠ [] :=
  ⟨_, rfl, rfl, rfl, rfl, rfl, generateUniqueId_ne_nil now⟩

theorem findIndex_eq_none {p : Student → Bool} :
    ∀ {students : List Student}, (∀ s ∈ students, p s = false) → findIndex p students = none
  | [], _ => rfl
  | s :: rest, h => by
      have hs : p s = false := h s (List.mem_cons_self _ _)
      have hr : findIndex p rest = none :=
        findIndex_eq_none (fun x hx => h x (List.mem_cons_of_mem _ hx))
      simp [findIndex, hs, hr]

/-- When some record satisfies `p`, `findIndex` returns the first index whose
record does. -/
theorem findIndex_eq_some {p : Student → Bool} :
    ∀ {students : List Student}, (∃ s ∈ students, p s = true) →
      ∃ index : Fin students.length, findIndex p students = some index ∧
        p (students.get index) = true ∧
        ∀ (j : Nat) (hj : j < students.length), j < index.val →
          p (students.get ⟨j, hj⟩) = false
  | [], h => by
      obtain ⟨s, hs, _⟩ := h
      cases hs
  | s :: rest, h => by
      by_cases hp : p s = true
      · refine ⟨⟨0, Nat.succ_pos _⟩, by simp [findIndex, hp], by simpa using hp, ?_⟩
        intro j _ hj0
        exact (Nat.not_lt_zero _ hj0).elim
      · have hrest : ∃ x ∈ rest, p x = true := by
          obtain ⟨x, hx, hpx⟩ := h
          rcases List.mem_cons.mp hx with rfl | hx
          · exact (hp hpx).elim
          · exact ⟨x, hx, hpx⟩
        obtain ⟨index, hfind, hpi, hfirst⟩ := findIndex_eq_some hrest
        refine ⟨index.succ, by simp [findIndex, hp, hfind], by simpa using hpi, ?_⟩
        intro j hj hlt
        cases j with
        | zero => simpa using hp
        | succ j =>
            have := hfirst j (Nat.lt_of_succ_lt_succ hj) (by simpa using hlt)
            simpa using this

/-- C2: if no stored record has the uniqueId held by `editingStudentId`,
`updateStudent` writes nothing and leaves the state as it is; otherwise the
stored collection keeps its length and order, the matched record (the first
one with that uniqueId) keeps its uniqueId and position and gets the trimmed
inputs as `name`, `id`, `email` and `contact`, and every other record is
unchanged. -/
theorem updateStudent_frame (updatedData : FormData) (app : App) :
    ((∀ s ∈ getStudentsFromStorage app.storage, some s.uniqueId ≠ app.editingStudentId) →
      updateStudent updatedData app = app) ∧
    ((∃ s ∈ getStudentsFromStorage app.storage, some s.uniqueId = app.editingStudentId) →
      ∃ (i : Nat) (hi : i < (getStudentsFromStorage app.storage).length),
        some ((getStudentsFromStorage app.storage).get ⟨i, hi⟩).uniqueId =
          app.editingStudentId ∧
        (∀ (j : Nat) (hj : j < (getStudentsFromStorage app.storage).length), j < i →
          some ((getStudentsFromStorage app.storage).get ⟨j, hj⟩).uniqueId ≠
            app.editingStudentId) ∧
        (getStudentsFromStorage (updateStudent updatedData app).storage).length =
          (getStudentsFromStorage app.storage).length ∧
        (getStudentsFromStorage (updateStudent updatedData app).storage)[i]? =
          some { uniqueId := ((getStudentsFromStorage app.storage).get ⟨i, hi⟩).uniqueId
                 name := trim updatedData.name
                 id := trim updatedData.id
                 email := trim updatedData.email
                 contact := trim updatedData.contact } ∧
        (∀ j : Nat, j ≠ i →
          (getStudentsFromStorage (updateStudent updatedData app).storage)[j]? =
            (getStudentsFromStorage app.storage)[j]?) ∧
        (updateStudent updatedData app).storage.writes = app.storage.writes + 1) := by
  constructor
  · intro h
    have hnone : findIndex (fun s => some s.uniqueId == app.editingStudentId)
        (getStudentsFromStorage app.storage) = none :=
      findIndex_eq_none (fun s hs => by simpa using h s hs)
    unfold updateStudent
    simp only [hnone]
  · intro h
    have hex : ∃ s ∈ getStudentsFromStorage app.storage,
        (fun s : Student => some s.uniqueId == app.editingStudentId) s = true := by
      obtain ⟨s, hs, he⟩ := h
      exact ⟨s, hs, by simpa using he⟩
    obtain ⟨index, hfind, hpi, hfirst⟩ := findIndex_eq_some hex
    refine ⟨index.val, index.isLt, by simpa using hpi, ?_, ?_⟩
    · intro j hj hlt
      have := hfirst j hj hlt
      simpa using this
    · unfold updateStudent
      simp only [hfind, closeEditModal, getStudents_save]
      refine ⟨by simp, ?_, ?_, rfl⟩
      · simp [List.getElem?_set]
      · intro j hj
        rw [List.getElem?_set_ne (Ne.symm hj)]

theorem updateStudent_frame_witness :
    updateStudent sampleForm sampleApp = sampleApp ∧
    (getStudentsFromStorage (updateStudent sampleForm sampleAppEditing).storage).length =
      (getStudentsFromStorage sampleAppEditing.storage).length :=
  ⟨(updateStudent_frame sampleForm sampleApp).1 (by decide),
   by
    obtain ⟨_, _, _, _, hlen, _⟩ :=
      (updateStudent_frame sampleForm sampleAppEditing).2 ⟨sampleRecord, by decide, by decide⟩
    exact hlen⟩

/-- C3, as stated, fails: when the confirmation dialog is declined,
`deleteStudent` returns at once and the record with the given uniqueId is
still stored. -/
theorem deleteStudent_declined_keeps_record :
    getStudentsFromStorage (deleteStudent false (js "17") sampleApp).storage = [sampleRecord] ∧
    sampleRecord.uniqueId = js "17" := by
  decide

/-- C3, amended: a `deleteStudent(uniqueId)` whose confirmation dialog is
accepted leaves a collection with no record of that uniqueId, holding every
other record of the previous collection unchanged and in the same order; a
second `deleteStudent(uniqueId)` on the result, accepted or declined, leaves
the collection unchanged; an accepted delete of an absent uniqueId leaves the
collection unchanged; a declined call changes nothing. -/
theorem deleteStudent_confirmed_idempotent (uniqueId : JSString) (app : App)
    (again : Bool) :
    (∀ s ∈ getStudentsFromStorage (deleteStudent true uniqueId app).storage,
      s.uniqueId ≠ uniqueId) ∧
    List.Sublist (getStudentsFromStorage (deleteStudent true uniqueId app).storage)
      (getStudentsFromStorage app.storage) ∧
    (∀ s : Student, s.uniqueId ≠ uniqueId →
      (getStudentsFromStorage (deleteStudent true uniqueId app).storage).count s =
        (getStudentsFromStorage app.storage).count s) ∧
    getStudentsFromStorage
        (deleteStudent again uniqueId (deleteStudent true uniqueId app)).storage =
      getStudentsFromStorage (deleteStudent true uniqueId app).storage ∧
    ((∀ s ∈ getStudentsFromStorage app.storage, s.uniqueId ≠ uniqueId) →
      getStudentsFromStorage (deleteStudent true uniqueId app).storage =
        getStudentsFromStorage app.storage) ∧
    deleteStudent false uniqueId app = app := by
  have hdel : ∀ a : App, getStudentsFromStorage (deleteStudent true uniqueId a).storage =
      (getStudentsFromStorage a.storage).filter (fun s => s.uniqueId != uniqueId) :=
    fun _ => rfl
  refine ⟨?_, ?_, ?_, ?_, ?_, rfl⟩
  · intro s hs
    rw [hdel] at hs
    simpa using (List.mem_filter.mp hs).2
  · rw [hdel]
    exact List.filter_sublist _
  · intro s hs
    rw [hdel, List.count_filter]
    simpa using hs
  · cases again
    · rfl
    · rw [hdel, hdel, List.filter_filter]
      simp
  · intro h
    rw [hdel, List.filter_eq_self]
    intro s hs
    simpa using h s hs

theorem deleteStudent_confirmed_idempotent_witness :
    getStudentsFromStorage (deleteStudent true (js "18") sampleApp).storage =
      getStudentsFromStorage sampleApp.storage :=
  (deleteStudent_confirmed_idempotent (js "18") sampleApp true).2.2.2.2.1 (by decide)

/-- C4: the code breaks the claim. Two `addStudent` calls on the empty store
for which `Date.now()` returns the same millisecond store two records with the
same `uniqueId`. -/
theorem addStudent_same_millisecond_duplicates :
    (getStudentsFromStorage
        (runCalls [Call.add 1700000000000 janeForm, Call.add 1700000000000 sampleForm]
          emptyApp).storage).map (fun s => s.uniqueId) =
      [js "1700000000000", js "1700000000000"] ∧
    ¬ (storedIds
        (runCalls [Call.add 1700000000000 janeForm, Call.add 1700000000000 sampleForm]
          emptyApp)).Nodup := by
  decide

/-- Uniqueness of `uniqueId` is kept by `updateStudent`: the list of stored
uniqueIds does not change. -/
theorem updateStudent_uniqueIds (updatedData : FormData) (app : App) :
    (getStudentsFromStorage (updateStudent updatedData app).storage).map (fun s => s.uniqueId) =
      (getStudentsFromStorage app.storage).map (fun s => s.uniqueId) := by
  cases hfind : findIndex (fun s => some s.uniqueId == app.editingStudentId)
      (getStudentsFromStorage app.storage) with
  | none =>
      unfold updateStudent
      simp only [hfind]
  | some index =>
      unfold updateStudent
      simp only [hfind, closeEditModal, getStudents_save]
      apply List.ext_getElem?
      intro j
      by_cases hj : index.val = j
      · subst hj
        simp [List.getElem?_set]
      · simp [List.getElem?_set, hj]

/-- Uniqueness of `uniqueId` is kept by `deleteStudent`. -/
theorem deleteStudent_uniqueIds_sublist (confirmed : Bool) (uniqueId : JSString) (app : App) :
    List.Sublist
      ((getStudentsFromStorage (deleteStudent confirmed uniqueId app).storage).map
        (fun s => s.uniqueId))
      ((getStudentsFromStorage app.storage).map (fun s => s.uniqueId)) := by
  cases confirmed
  · exact List.Sublist.refl _
  · exact (List.filter_sublist _).map _

/-- One call keeps the stored uniqueIds pairwise distinct, provided that an
`addStudent` draws a uniqueId no stored record has. -/
theorem run_keeps_uniqueIds_distinct (call : Call) (app : App)
    (hdistinct : ((getStudentsFromStorage app.storage).map (fun s => s.uniqueId)).Nodup)
    (hfresh : ∀ now studentData, call = Call.add now studentData →
      ∀ s ∈ getStudentsFromStorage app.storage, s.uniqueId ≠ generateUniqueId now) :
    ((getStudentsFromStorage (call.run app).storage).map (fun s => s.uniqueId)).Nodup := by
  cases call with
  | add now studentData =>
      have h := hfresh now studentData rfl
      show ((getStudentsFromStorage app.storage ++ [_]).map
        (fun s : Student => s.uniqueId)).Nodup
      rw [List.map_append, List.nodup_append]
      refine ⟨hdistinct, by simp, ?_⟩
      intro a ha hb
      simp only [List.map_cons, List.map_nil, List.mem_singleton] at hb
      obtain ⟨s, hs, rfl⟩ := List.mem_map.mp ha
      exact h s hs hb
  | update target updatedData =>
      show ((getStudentsFromStorage (updateStudent updatedData _).storage).map
        (fun s : Student => s.uniqueId)).Nodup
      rw [updateStudent_uniqueIds]
      exact hdistinct
  | delete confirmed uniqueId =>
      exact (deleteStudent_uniqueIds_sublist confirmed uniqueId app).nodup hdistinct

theorem decimalCore_append : ∀ (fuel n : Nat) (acc : JSString),
    decimalCore fuel n acc = decimalCore fuel n [] ++ acc
  | 0, _, _ => rfl
  | fuel + 1, n, acc => by
      unfold decimalCore
      split
      · rfl
      · rw [decimalCore_append fuel (n / 10) ((48 + n % 10) :: acc),
          decimalCore_append fuel (n / 10) [48 + n % 10]]
        simp

theorem decimalValue_append_digit (digits : JSString) (d : Nat) :
    decimalValue (digits ++ [48 + d]) = 10 * decimalValue digits + d := by
  simp [decimalValue, List.foldl_append]

/-- With enough fuel the digits written are those of the number. -/
theorem decimalValue_decimalCore : ∀ (fuel n : Nat), n < fuel →
    decimalValue (decimalCore fuel n []) = n
  | 0, _, h => (Nat.not_lt_zero _ h).elim
  | fuel + 1, n, h => by
      unfold decimalCore
      split
      · rename_i h0
        have : n % 10 = n := by omega
        simp [decimalValue, this]
      · rename_i h0
        rw [decimalCore_append, decimalValue_append_digit,
          decimalValue_decimalCore fuel (n / 10) (by omega)]
        omega

theorem decimalCore_mem : ∀ (fuel n : Nat) (acc : JSString) (x : Nat),
    x ∈ decimalCore fuel n acc → x ∈ acc ∨ 48 ≤ x
  | 0, _, _, _, h => Or.inl h
  | fuel + 1, n, acc, x, h => by
      unfold decimalCore at h
      split at h
      · rcases List.mem_cons.mp h with rfl | h
        · exact Or.inr (Nat.le_add_right _ _)
        · exact Or.inl h
      · rcases decimalCore_mem fuel (n / 10) _ x h with h | h
        · rcases List.mem_cons.mp h with rfl | h
          · exact Or.inr (Nat.le_add_right _ _)
          · exact Or.inl h
        · exact Or.inr h

theorem decimalCore_injective {n m : Nat}
    (h : decimalCore (n + 1) n [] = decimalCore (m + 1) m []) : n = m := by
  have hn := decimalValue_decimalCore (n + 1) n (Nat.lt_succ_self n)
  have hm := decimalValue_decimalCore (m + 1) m (Nat.lt_succ_self m)
  rw [h] at hn
  exact hn.symm.trans hm

theorem minus_ne_decimalCore (rest : JSString) (n : Nat) :
    45 :: rest ≠ decimalCore (n + 1) n [] := by
  intro h
  have hmem : 45 ∈ decimalCore (n + 1) n [] := by
    rw [← h]
    exact List.mem_cons_self _ _
  rcases decimalCore_mem _ _ _ _ hmem with h | h
  · cases h
  · omega

/-- Distinct clock values give distinct uniqueIds. -/
theorem generateUniqueId_injective {a b : Int}
    (h : generateUniqueId a = generateUniqueId b) : a = b := by
  unfold generateUniqueId numberToString at h
  by_cases ha : a < 0 <;> by_cases hb : b < 0
  · rw [if_pos ha, if_pos hb] at h
    have := decimalCore_injective (List.cons.inj h).2
    omega
  · rw [if_pos ha, if_neg hb] at h
    exact (minus_ne_decimalCore _ _ h).elim
  · rw [if_neg ha, if_pos hb] at h
    exact (minus_ne_decimalCore _ _ h.symm).elim
  · rw [if_neg ha, if_neg hb] at h
    have := decimalCore_injective h
    omega

theorem runCalls_keeps_uniqueIds_distinct : ∀ (calls : List Call) (app : App) (used : List Int),
    (storedIds app).Nodup → (∀ id ∈ storedIds app, ∃ t ∈ used, id = generateUniqueId t) →
    (used ++ addInstants calls).Nodup → (storedIds (runCalls calls app)).Nodup
  | [], _, _, hd, _, _ => hd
  | call :: calls, app, used, hd, hfrom, hused => by
      show (storedIds (runCalls calls (call.run app))).Nodup
      cases call with
      | add now studentData =>
          have hids : storedIds (addStudent now studentData app) =
              storedIds app ++ [generateUniqueId now] := by
            simp [storedIds, addStudent, getStudents_save]
          have hused2 : ((used ++ [now]) ++ addInstants calls).Nodup := by
            simpa [addInstants] using hused
          have hnow : now ∉ used := by
            intro hmem
            have hdis := (List.nodup_append.mp hused).2.2
            exact hdis hmem (by simp [addInstants])
          refine runCalls_keeps_uniqueIds_distinct calls _ (used ++ [now]) ?_ ?_ hused2
          · show (storedIds (addStudent now studentData app)).Nodup
            rw [hids, List.nodup_append]
            refine ⟨hd, by simp, ?_⟩
            intro id hid hid2
            simp only [List.mem_singleton] at hid2
            obtain ⟨t, ht, rfl⟩ := hfrom id hid
            exact hnow (generateUniqueId_injective hid2 ▸ ht)
          · intro id hid
            change id ∈ storedIds (addStudent now studentData app) at hid
            rw [hids] at hid
            rcases List.mem_append.mp hid with hid | hid
            · obtain ⟨t, ht, rfl⟩ := hfrom id hid
              exact ⟨t, List.mem_append_left _ ht, rfl⟩
            · simp only [List.mem_singleton] at hid
              exact ⟨now, by simp, hid⟩
      | update target updatedData =>
          have hids : storedIds (updateStudent updatedData
              { app with editingStudentId := target }) = storedIds app :=
            updateStudent_uniqueIds updatedData { app with editingStudentId := target }
          refine runCalls_keeps_uniqueIds_distinct calls _ used ?_ ?_ (by simpa [addInstants] using hused)
          · show (storedIds (updateStudent updatedData _)).Nodup
            rw [hids]
            exact hd
          · intro id hid
            change id ∈ storedIds (updateStudent updatedData _) at hid
            rw [hids] at hid
            exact hfrom id hid
      | delete confirmed uniqueId =>
          have hsub : List.Sublist (storedIds (deleteStudent confirmed uniqueId app))
              (storedIds app) := deleteStudent_uniqueIds_sublist confirmed uniqueId app
          refine runCalls_keeps_uniqueIds_distinct calls _ used (hsub.nodup hd) ?_
            (by simpa [addInstants] using hused)
          intro id hid
          exact hfrom id (hsub.subset hid)

/-- What the store does guarantee about `uniqueId`: starting from the empty
store, every sequence of `addStudent`, `updateStudent` and `deleteStudent`
calls in which no two `addStudent` calls read the same value of `Date.now()`
leaves the stored uniqueIds pairwise distinct. -/
theorem uniqueIds_distinct_of_distinct_instants (calls : List Call)
    (h : (addInstants calls).Nodup) : (storedIds (runCalls calls emptyApp)).Nodup :=
  runCalls_keeps_uniqueIds_distinct calls emptyApp [] List.nodup_nil
    (fun _ hid => by cases hid) (by simpa using h)

theorem uniqueIds_distinct_of_distinct_instants_example :
    (storedIds (runCalls [Call.add 1700000000000 janeForm, Call.delete false (js "17"),
      Call.add 1700000000001 sampleForm] emptyApp)).Nodup :=
  uniqueIds_distinct_of_distinct_instants _ (by decide)

/-! ## Form validation and error display -/

theorem bind_apply {α β : Type} (m : DomM α) (f : α → DomM β) (doc : Document) :
    (m >>= f) doc =
      match m doc with
      | Outcome.returned a doc1 => f a doc1
      | Outcome.threw doc1 => Outcome.threw doc1 := rfl

theorem pure_apply {α : Type} (a : α) (doc : Document) :
    (pure a : DomM α) doc = Outcome.returned a doc := rfl

theorem append_left_cancel_iff (p a b : String) : p ++ a = p ++ b ↔ a = b := by
  constructor
  · intro h
    have := congrArg String.data h
    simp only [String.data_append, List.append_cancel_left_eq] at this
    exact String.ext this
  · rintro rfl
    rfl

/-- C10: the code breaks the claim on the edit form. Called with the prefix
`'edit'`, as the submit handler of the edit form does, `validateForm` looks up
`editstudentName`, an id no element of the page has (the page's element is
`editStudentName`), and throws instead of returning, whatever the fields
are, for instance on fields that pass all four validators. -/
theorem validateForm_edit_prefix_throws :
    (∀ formData : FormData, (validateForm formData "edit" pageDocument).value? = none) ∧
    (validateName janeForm.name).isValid = true ∧
    (validateStudentId janeForm.id).isValid = true ∧
    (validateEmail janeForm.email).isValid = true ∧
    (validateContact janeForm.contact).isValid = true := by
  refine ⟨fun formData => ?_, by decide, by decide, by decide, by decide⟩
  have hnull : pageDocument "editstudentName" = none := by decide
  unfold validateForm
  cases (validateName formData.name).isValid <;>
    simp [bind_apply, showError, clearError, hnull, Outcome.value?]

/-- On a document that holds the eight elements `validateForm` looks up for
its prefix (the main form, with the empty prefix, on the page), `validateForm`
runs to the end, returns the conjunction of the four verdicts, and leaves each
field showing its own verdict. -/
theorem validateForm_of_elements (formData : FormData) (pfx : String) (doc : Document)
    (hdoc : ∀ id ∈ formIds, (doc (pfx ++ id)).isSome = true) :
    (validateForm formData pfx doc).value? =
      some ((validateName formData.name).isValid && (validateStudentId formData.id).isValid &&
        (validateEmail formData.email).isValid && (validateContact formData.contact).isValid) ∧
    ShowsVerdict (validateForm formData pfx doc).document (pfx ++ "studentName")
      (pfx ++ "nameError") (validateName formData.name) ∧
    ShowsVerdict (validateForm formData pfx doc).document (pfx ++ "studentId")
      (pfx ++ "idError") (validateStudentId formData.id) ∧
    ShowsVerdict (validateForm formData pfx doc).document (pfx ++ "email")
      (pfx ++ "emailError") (validateEmail formData.email) ∧
    ShowsVerdict (validateForm formData pfx doc).document (pfx ++ "contactNumber")
      (pfx ++ "contactError") (validateContact formData.contact) := by
  obtain ⟨x1, h1⟩ := Option.isSome_iff_exists.mp (hdoc "studentName" (by decide))
  obtain ⟨x2, h2⟩ := Option.isSome_iff_exists.mp (hdoc "nameError" (by decide))
  obtain ⟨x3, h3⟩ := Option.isSome_iff_exists.mp (hdoc "studentId" (by decide))
  obtain ⟨x4, h4⟩ := Option.isSome_iff_exists.mp (hdoc "idError" (by decide))
  obtain ⟨x5, h5⟩ := Option.isSome_iff_exists.mp (hdoc "email" (by decide))
  obtain ⟨x6, h6⟩ := Option.isSome_iff_exists.mp (hdoc "emailError" (by decide))
  obtain ⟨x7, h7⟩ := Option.isSome_iff_exists.mp (hdoc "contactNumber" (by decide))
  obtain ⟨x8, h8⟩ := Option.isSome_iff_exists.mp (hdoc "contactError" (by decide))
  unfold validateForm ShowsVerdict
  generalize validateName formData.name = vn
  generalize validateStudentId formData.id = vi
  generalize validateEmail formData.email = ve
  generalize validateContact formData.contact = vc
  rcases vn with ⟨_ | _, mn⟩ <;> rcases vi with ⟨_ | _, mi⟩ <;>
  rcases ve with ⟨_ | _, me⟩ <;> rcases vc with ⟨_ | _, mc⟩ <;>
    simp [bind_apply, pure_apply, showError, clearError, Document.set, Outcome.value?,
      Outcome.document, append_left_cancel_iff, h1, h2, h3, h4, h5, h6, h7, h8]

/-- The main form of the page: with the empty prefix every element is found,
so `validateForm` returns and shows the four verdicts. -/
theorem validateForm_main_form :
    (validateForm janeForm "" pageDocument).value? = some true ∧
    (validateForm sampleForm "" pageDocument).value? = some true ∧
    (validateForm { janeForm with id := js "1001 " } "" pageDocument).value? = some false := by
  refine ⟨?_, ?_, ?_⟩
  · exact (validateForm_of_elements janeForm "" pageDocument (by decide)).1.trans (by decide)
  · exact (validateForm_of_elements sampleForm "" pageDocument (by decide)).1.trans (by decide)
  · exact (validateForm_of_elements _ "" pageDocument (by decide)).1.trans (by decide)

/-! ## Validity and trimming -/

theorem dropWhile_head_not {p : Nat → Bool} :
    ∀ {s : JSString} {x : Nat} {r : JSString}, s.dropWhile p = x :: r → p x = false
  | [], _, _, h => by cases h
  | y :: s, x, r, h => by
      by_cases hy : p y = true
      · rw [List.dropWhile_cons_of_pos hy] at h
        exact dropWhile_head_not h
      · rw [List.dropWhile_cons_of_neg hy] at h
        obtain ⟨rfl, _⟩ := List.cons.inj h
        simpa using hy

theorem trimEnd_initial (s : JSString) : trimEnd s <+: s :=
  List.rdropWhile_prefix isWhiteSpace s

theorem trimEnd_trimEnd (s : JSString) : trimEnd (trimEnd s) = trimEnd s :=
  List.rdropWhile_idempotent isWhiteSpace s

theorem trim_sublist (s : JSString) : List.Sublist (trim s) s :=
  (trimEnd_initial _).sublist.trans (List.dropWhile_sublist _)

/-- Trimming a trimmed string changes nothing. -/
theorem trim_trim (s : JSString) : trim (trim s) = trim s := by
  have hdrop : (trim s).dropWhile isWhiteSpace = trim s := by
    cases ht : trim s with
    | nil => rfl
    | cons x r =>
        obtain ⟨rest, hrest⟩ : trim s <+: s.dropWhile isWhiteSpace := trimEnd_initial _
        rw [ht] at hrest
        have hx : isWhiteSpace x = false := dropWhile_head_not hrest.symm
        rw [List.dropWhile_cons_of_neg (by simp [hx])]
  show trimEnd ((trim s).dropWhile isWhiteSpace) = trim s
  rw [hdrop]
  exact trimEnd_trimEnd _

/-- A string without white space is left as it is by `trim`. -/
theorem trim_eq_self {s : JSString} (h : ∀ c ∈ s, isWhiteSpace c = false) : trim s = s := by
  have hdrop : ∀ t : JSString, (∀ c ∈ t, isWhiteSpace c = false) →
      t.dropWhile isWhiteSpace = t := by
    intro t ht
    cases t with
    | nil => rfl
    | cons x r =>
        rw [List.dropWhile_cons_of_neg (by simp [ht x (List.mem_cons_self _ _)])]
  unfold trim trimEnd
  rw [hdrop s h, hdrop s.reverse (fun c hc => h c (List.mem_reverse.mp hc)), List.reverse_reverse]

theorem validateName_isValid_iff (s : JSString) :
    (validateName s).isValid = true ↔
      trim s ≠ [] ∧ nameRegex.test s = true ∧ 2 ≤ (trim s).length := by
  unfold validateName
  by_cases ht : trim s = []
  · simp [ht]
  · cases hx : nameRegex.test s
    · simp [ht]
    · by_cases hl : (trim s).length < 2
      · simp [ht, hl]
      · simp [ht, hl, Nat.le_of_not_lt hl]

theorem validateStudentId_isValid_iff (s : JSString) :
    (validateStudentId s).isValid = true ↔ trim s ≠ [] ∧ idRegex.test s = true := by
  unfold validateStudentId
  by_cases ht : trim s = []
  · simp [ht]
  · cases hx : idRegex.test s <;> simp [ht]

theorem validateEmail_isValid_iff (s : JSString) :
    (validateEmail s).isValid = true ↔ trim s ≠ [] ∧ emailRegex.test s = true := by
  unfold validateEmail
  by_cases ht : trim s = []
  · simp [ht]
  · cases hx : emailRegex.test s <;> simp [ht]

theorem validateContact_isValid_iff (s : JSString) :
    (validateContact s).isValid = true ↔
      trim s ≠ [] ∧ contactRegex.test s = true ∧ 10 ≤ s.length := by
  unfold validateContact
  by_cases ht : trim s = []
  · simp [ht]
  · cases hx : contactRegex.test s
    · simp [ht]
    · by_cases hl : s.length < 10
      · simp [ht, hl]
      · simp [ht, hl, Nat.le_of_not_lt hl]

/-- A name that passes still passes once trimmed. -/
theorem validateName_trim {s : JSString} (h : (validateName s).isValid = true) :
    (validateName (trim s)).isValid = true := by
  rw [validateName_isValid_iff] at h ⊢
  obtain ⟨hne, htest, hlen⟩ := h
  rw [trim_trim]
  refine ⟨hne, ?_, hlen⟩
  rw [nameRegex_test_iff] at htest ⊢
  exact ⟨hne, fun c hc => htest.2 c ((trim_sublist s).subset hc)⟩

/-- A string of digits holds no white space, so `trim` leaves it as it is. -/
theorem trim_eq_self_of_digits {s : JSString} (h : ∀ c ∈ s, digitClass c = true) :
    trim s = s :=
  trim_eq_self (fun c hc => isWhiteSpace_false_of_digit (h c hc))

theorem trim_eq_self_of_validateStudentId {s : JSString}
    (h : (validateStudentId s).isValid = true) : trim s = s :=
  trim_eq_self_of_digits ((idRegex_test_iff s).mp ((validateStudentId_isValid_iff s).mp h).2).2

theorem trim_eq_self_of_validateContact {s : JSString}
    (h : (validateContact s).isValid = true) : trim s = s :=
  trim_eq_self_of_digits
    ((contactRegex_test_iff s).mp ((validateContact_isValid_iff s).mp h).2.1).2

theorem trim_eq_self_of_validateEmail {s : JSString}
    (h : (validateEmail s).isValid = true) : trim s = s :=
  trim_eq_self ((emailRegex_test_iff_wellFormed s).mp ((validateEmail_isValid_iff s).mp h).2).1

theorem value?_bind {α β : Type} (m : DomM α) (f : α → DomM β) (doc : Document) (b : β)
    (h : ((m >>= f) doc).value? = some b) : ∃ a doc1, (f a doc1).value? = some b := by
  rw [bind_apply] at h
  cases hm : m doc with
  | returned a doc1 =>
      rw [hm] at h
      exact ⟨a, doc1, h⟩
  | threw doc1 =>
      rw [hm] at h
      cases h

/-- When `validateForm` returns `true`, on any document and for any prefix,
the four validators have passed. -/
theorem validators_pass_of_validateForm (formData : FormData) (pfx : String)
    (doc : Document) (h : (validateForm formData pfx doc).value? = some true) :
    (validateName formData.name).isValid = true ∧
    (validateStudentId formData.id).isValid = true ∧
    (validateEmail formData.email).isValid = true ∧
    (validateContact formData.contact).isValid = true := by
  unfold validateForm at h
  generalize validateName formData.name = vn at h ⊢
  generalize validateStudentId formData.id = vi at h ⊢
  generalize validateEmail formData.email = ve at h ⊢
  generalize validateContact formData.contact = vc at h ⊢
  rcases vn with ⟨_ | _, mn⟩ <;> rcases vi with ⟨_ | _, mi⟩ <;>
  rcases ve with ⟨_ | _, me⟩ <;> rcases vc with ⟨_ | _, mc⟩ <;>
    first
    | exact ⟨rfl, rfl, rfl, rfl⟩
    | (exfalso
       simp only [Bool.not_false, Bool.not_true, if_true, Bool.false_eq_true, if_false] at h
       repeat (obtain ⟨_, _, h⟩ := value?_bind _ _ _ _ h)
       simp [pure_apply, Outcome.value?] at h)

theorem meetsFieldConstraints_of_valid (r : Student)
    (hn : (validateName r.name).isValid = true) (hi : (validateStudentId r.id).isValid = true)
    (he : (validateEmail r.email).isValid = true)
    (hc : (validateContact r.contact).isValid = true) : MeetsFieldConstraints r :=
  ⟨(validateName_isValid_iff _).mp hn, (validateStudentId_isValid_iff _).mp hi,
    (validateEmail_isValid_iff _).mp he, (validateContact_isValid_iff _).mp hc⟩

/-- The record `updateStudent` writes: when a stored record has the uniqueId
held by `editingStudentId`, one position of the collection receives the old
uniqueId with the four trimmed fields, and no other position changes. -/
theorem updateStudent_written (updatedData : FormData) (app : App)
    (h : ∃ s ∈ getStudentsFromStorage app.storage, some s.uniqueId = app.editingStudentId) :
    ∃ (i : Nat) (uniqueId : JSString),
      (getStudentsFromStorage (updateStudent updatedData app).storage)[i]? =
        some { uniqueId := uniqueId
               name := trim updatedData.name
               id := trim updatedData.id
               email := trim updatedData.email
               contact := trim updatedData.contact } ∧
      ∀ j : Nat, j ≠ i →
        (getStudentsFromStorage (updateStudent updatedData app).storage)[j]? =
          (getStudentsFromStorage app.storage)[j]? := by
  have hex : ∃ s ∈ getStudentsFromStorage app.storage,
      (fun s : Student => some s.uniqueId == app.editingStudentId) s = true := by
    obtain ⟨s, hs, he⟩ := h
    exact ⟨s, hs, by simpa using he⟩
  obtain ⟨index, hfind, _, _⟩ := findIndex_eq_some hex
  refine ⟨index.val, ((getStudentsFromStorage app.storage).get index).uniqueId, ?_, ?_⟩
  · unfold updateStudent
    simp only [hfind, closeEditModal, getStudents_save]
    simp [List.getElem?_set]
  · intro j hj
    unfold updateStudent
    simp only [hfind, closeEditModal, getStudents_save]
    rw [List.getElem?_set_ne (Ne.symm hj)]

/-- C11: validity survives the trimming done by the store. For four raw
fields that pass `validateName`, `validateStudentId`, `validateEmail` and
`validateContact`, the trimmed values also pass the four validators, and the
trimmed `id`, `email` and `contact` are the raw inputs; so the record
`addStudent` appends and the record `updateStudent` writes hold the trimmed
name and the raw `id`, `email` and `contact`, and meet the field constraints of
the data model. Whenever `validateForm` returns `true` the four validators have
passed, so this covers every record written after a passing `validateForm`. -/
theorem validity_survives_trimming (formData : FormData) :
    ((validateName formData.name).isValid = true →
      (validateStudentId formData.id).isValid = true →
      (validateEmail formData.email).isValid = true →
      (validateContact formData.contact).isValid = true →
        ((validateName (trim formData.name)).isValid = true ∧
          (validateStudentId (trim formData.id)).isValid = true ∧
          (validateEmail (trim formData.email)).isValid = true ∧
          (validateContact (trim formData.contact)).isValid = true) ∧
        (trim formData.id = formData.id ∧ trim formData.email = formData.email ∧
          trim formData.contact = formData.contact) ∧
        (∀ (now : Int) (app : App), ∃ r : Student,
          getStudentsFromStorage (addStudent now formData app).storage =
            getStudentsFromStorage app.storage ++ [r] ∧
          r.name = trim formData.name ∧ r.id = formData.id ∧ r.email = formData.email ∧
          r.contact = formData.contact ∧ MeetsFieldConstraints r) ∧
        (∀ app : App,
          (∃ s ∈ getStudentsFromStorage app.storage,
            some s.uniqueId = app.editingStudentId) →
          ∃ (i : Nat) (r : Student),
            (getStudentsFromStorage (updateStudent formData app).storage)[i]? = some r ∧
            (∀ j : Nat, j ≠ i →
              (getStudentsFromStorage (updateStudent formData app).storage)[j]? =
                (getStudentsFromStorage app.storage)[j]?) ∧
            r.name = trim formData.name ∧ r.id = formData.id ∧ r.email = formData.email ∧
            r.contact = formData.contact ∧ MeetsFieldConstraints r)) ∧
    (∀ (pfx : String) (doc : Document),
      (validateForm formData pfx doc).value? = some true →
        (validateName formData.name).isValid = true ∧
        (validateStudentId formData.id).isValid = true ∧
        (validateEmail formData.email).isValid = true ∧
        (validateContact formData.contact).isValid = true) := by
  refine ⟨fun hn hi he hc => ?_, fun pfx doc h => validators_pass_of_validateForm _ pfx doc h⟩
  have ti : trim formData.id = formData.id := trim_eq_self_of_validateStudentId hi
  have te : trim formData.email = formData.email := trim_eq_self_of_validateEmail he
  have tc : trim formData.contact = formData.contact := trim_eq_self_of_validateContact hc
  have vn : (validateName (trim formData.name)).isValid = true := validateName_trim hn
  have meets : ∀ uniqueId : JSString, MeetsFieldConstraints
      { uniqueId := uniqueId, name := trim formData.name, id := trim formData.id,
        email := trim formData.email, contact := trim formData.contact } := by
    intro uniqueId
    apply meetsFieldConstraints_of_valid
    · exact vn
    · show (validateStudentId (trim formData.id)).isValid = true
      rw [ti]
      exact hi
    · show (validateEmail (trim formData.email)).isValid = true
      rw [te]
      exact he
    · show (validateContact (trim formData.contact)).isValid = true
      rw [tc]
      exact hc
  refine ⟨⟨vn, by rw [ti]; exact hi, by rw [te]; exact he, by rw [tc]; exact hc⟩,
    ⟨ti, te, tc⟩, ?_, ?_⟩
  · intro now app
    exact ⟨_, rfl, rfl, ti, te, tc, meets _⟩
  · intro app hfound
    obtain ⟨i, uniqueId, hwritten, hothers⟩ := updateStudent_written formData app hfound
    exact ⟨i, _, hwritten, hothers, rfl, ti, te, tc, meets uniqueId⟩

theorem validity_survives_trimming_witness :
    ((validateName (trim sampleForm.name)).isValid = true ∧
      (validateStudentId (trim sampleForm.id)).isValid = true ∧
      (validateEmail (trim sampleForm.email)).isValid = true ∧
      (validateContact (trim sampleForm.contact)).isValid = true) ∧
    (trim sampleForm.id = sampleForm.id ∧ trim sampleForm.email = sampleForm.email ∧
      trim sampleForm.contact = sampleForm.contact) ∧
    ((validateName janeForm.name).isValid = true ∧
      (validateStudentId janeForm.id).isValid = true ∧
      (validateEmail janeForm.email).isValid = true ∧
      (validateContact janeForm.contact).isValid = true) ∧
    trim sampleForm.name ≠ sampleForm.name :=
  ⟨((validity_survives_trimming sampleForm).1 (by decide) (by decide) (by decide)
      (by decide)).1,
   ((validity_survives_trimming sampleForm).1 (by decide) (by decide) (by decide)
      (by decide)).2.1,
   (validity_survives_trimming janeForm).2 "" pageDocument validateForm_main_form.1,
   by decide⟩

end StudentRegistration
